import Mathlib

/-!
Shallow embedding of the Guessy-Wordy speech-result adjudication pipeline.

The repository contains two variants of the game page:
* `src/unnamed/part_000` — the Azure Speech variant of the Index page
  (punctuation-stripping `normalizeWord`, attempt-counter cleanup in
  `moveToNextWord`); embedded below in namespace `IndexAzure`.
* `src/src/pages/Index.tsx` — the Web Speech variant (lowercase-only
  normalization, raw words in the `possibilities` list); embedded below in
  namespace `IndexWeb`.
The homophone table is `src/src/data/homonyms.ts` and the recognizer session
is `src/src/components/SpeechRecognition.tsx`.

Machine reals (confidence scores) are modelled as `Rat`; the JS literal `0.1`
is the rational `1 / 10`.  Timestamps (`Date.now()`) are not modelled: no
claim depends on them.  React state updates inside one synchronous handler
are modelled by sequential record updates, which matches the batched-update
semantics the handlers rely on.
-/

namespace GuessyWordy

/-! ### Character / string helpers

JS string primitives are modelled at the `List Char` level so that their
effect on individual characters is visible to proofs:
`toLowerCase` is `Char.toLower` mapped over the characters, `trim` removes
whitespace from both ends, `split(/\s+/)` splits on maximal nonempty runs of
whitespace (keeping the empty fragments JS produces at the ends), and
`replace(/[.,!?]/g, '')` filters those four characters out. -/

/-- The four characters removed by `replace(/[.,!?]/g, '')` in
`part_000`'s `normalizeWord`. -/
def isPunctCharJS (c : Char) : Bool :=
  c == '.' || c == ',' || c == '!' || c == '?'

/-- Model of `String.prototype.trim`: drop whitespace at both ends. -/
def trimChars (l : List Char) : List Char :=
  ((l.dropWhile Char.isWhitespace).reverse.dropWhile Char.isWhitespace).reverse

/-- Model of `s.toLowerCase()`. -/
def jsToLower (s : String) : String :=
  String.mk (s.data.map Char.toLower)

/-- Model of `s.toLowerCase().trim()` (used by `Index.tsx`). -/
def jsLowerTrim (s : String) : String :=
  String.mk (trimChars (s.data.map Char.toLower))

/-- Model of `s.trim().toLowerCase()` (used by `SpeechRecognition.tsx`). -/
def jsTrimLower (s : String) : String :=
  String.mk ((trimChars s.data).map Char.toLower)

/-- Auxiliary tokenizer for `split(/\s+/)`: `acc` holds the (reversed)
current fragment; the first whitespace character of a run emits the
fragment, and `inRun` records that the run is still being skipped. -/
def splitWsAux (inRun : Bool) (acc : List Char) : List Char → List (List Char)
  | [] => [acc.reverse]
  | c :: rest =>
    if c.isWhitespace then
      if inRun then splitWsAux true [] rest
      else acc.reverse :: splitWsAux true [] rest
    else splitWsAux false (c :: acc) rest

/-- Model of `s.split(/\s+/)`: fragments between maximal whitespace runs,
including the empty fragments JS yields for leading/trailing whitespace. -/
def splitWs (s : String) : List String :=
  (splitWsAux false [] s.data).map String.mk

/-! ### Homophone table — `src/src/data/homonyms.ts` -/

structure HomonymGroup where
  words : List String
deriving DecidableEq

def HOMONYM_GROUPS : List HomonymGroup := [
  ⟨["to", "two", "too"]⟩,
  ⟨["there", "their", "they're"]⟩,
  ⟨["your", "you're"]⟩,
  ⟨["know", "no"]⟩,
  ⟨["one", "won"]⟩,
  ⟨["buy", "by", "bye"]⟩,
  ⟨["which", "witch"]⟩,
  ⟨["four", "for", "fore"]⟩,
  ⟨["were", "we're"]⟩,
  ⟨["an", "ann", "anne"]⟩,
  ⟨["with", "wiz"]⟩,
  ⟨["he", "hey"]⟩
]

/-- `areHomonyms` from `homonyms.ts`: case-fold both words; equal words are
never homonyms; otherwise test whether some group contains both. -/
def areHomonyms (word1 word2 : String) : Bool :=
  let normalizedWord1 := jsToLower word1
  let normalizedWord2 := jsToLower word2
  if normalizedWord1 == normalizedWord2 then false
  else HOMONYM_GROUPS.any fun group =>
    group.words.contains normalizedWord1 && group.words.contains normalizedWord2

/-! ### Data model -/

/-- `Word` from `src/src/data/words.ts` (only its shape is needed). -/
structure Word where
  text : String
  difficulty : String
deriving DecidableEq

/-- One ranked recognition alternative `{transcript, confidence}`. -/
structure Alt where
  transcript : String
  confidence : Rat
deriving DecidableEq

/-- `GameLogEntry` (both Index variants declare the same interface).
The `timestamp : Date.now()` field is real time and is not modelled. -/
structure GameLogEntry where
  word : String
  userAnswer : String
  isCorrect : Bool
  difficulty : String
  attemptNumber : Nat
  possibilities : List (String × Rat)
deriving DecidableEq

/-- The controller state owned by the Index page.  The JS object
`incorrectAttempts` is modelled as an association list with JS-object update
semantics (`lookupAttempts`, `setAttempts`, `eraseAttempts` below);
`usedWords` (a JS `Set`) as an insertion-ordered duplicate-free list.
`isProcessingAttemptRef` models the `useRef` guard and `isProcessingAttempt`
the mirroring React state flag. -/
structure GameState where
  currentWordIndex : Nat
  shuffledWords : List Word
  gameActive : Bool
  gameOver : Bool
  usedWords : List String
  incorrectAttempts : List (String × Nat)
  gameLog : List GameLogEntry
  isProcessingAttemptRef : Bool
  isProcessingAttempt : Bool
deriving DecidableEq

/-- JS `incorrectAttempts[w] || 0`. -/
def lookupAttempts (m : List (String × Nat)) (w : String) : Nat :=
  (((m.find? fun p => p.1 == w).map Prod.snd).getD 0)

/-- JS `{ ...prev, [w]: n }`: overwrite in place if the key exists,
otherwise append. -/
def setAttempts (m : List (String × Nat)) (w : String) (n : Nat) :
    List (String × Nat) :=
  if m.any fun p => p.1 == w then
    m.map fun p => if p.1 == w then (w, n) else p
  else m ++ [(w, n)]

/-- JS `delete attempts[w]`. -/
def eraseAttempts (m : List (String × Nat)) (w : String) :
    List (String × Nat) :=
  m.filter fun p => p.1 != w

/-- JS `new Set([...prev, w])`: insertion-ordered, duplicates collapsed. -/
def insertUnique (l : List String) (w : String) : List String :=
  if l.contains w then l else l ++ [w]

/-- Add every element of `ws` to the JS `Set` `l` (a `forEach` of `add`). -/
def addAll (l : List String) (ws : List String) : List String :=
  ws.foldl insertUnique l

/-! ### The Azure Index page — `src/unnamed/part_000` -/

/-- `normalizeWord` from `part_000`'s `handleSpeechResult`:
`word.toLowerCase().replace(/[.,!?]/g, '').trim()`. -/
def normalizeWord (w : String) : String :=
  String.mk (trimChars ((w.data.map Char.toLower).filter fun c => !isPunctCharJS c))

/-- The `allPossibleWords` set of `part_000`: the whitespace tokens of the
transcript and of every alternative, each passed through `normalizeWord`,
collected into one JS `Set`.  `none` models the `alternatives` parameter
being absent. -/
def allPossibleWords (transcript : String) (alternatives : Option (List Alt)) :
    List String :=
  let wordsHeard := (splitWs transcript).map normalizeWord
  let s0 := addAll [] wordsHeard
  match alternatives with
  | some alts =>
    alts.foldl (fun s alt => addAll s ((splitWs alt.transcript).map normalizeWord)) s0
  | none => s0

/-- The `possibilities` array of `part_000`: alternatives with confidence
above `0.1` (word field normalized), or the single normalized transcript at
confidence `1.0` when no alternatives were provided.  An empty provided
array is truthy in JS, so it yields an empty list. -/
def possibilitiesOf (transcript : String) (alternatives : Option (List Alt)) :
    List (String × Rat) :=
  match alternatives with
  | some alts =>
    (alts.filter fun p => 1 / 10 < p.confidence).map
      fun p => (normalizeWord p.transcript, p.confidence)
  | none => [(normalizeWord transcript, 1)]

/-- The matching loop of `part_000`'s `handleSpeechResult`: for each
candidate, first exact equality with the target, then `areHomonyms`;
`break` on the first match (`List.any` short-circuits exactly like the
loop).  `Index.tsx` runs the same test via `Array.some`. -/
def evaluateMatch (candidates : List String) (target : String) : Bool :=
  candidates.any fun word => word == target || areHomonyms word target

namespace IndexAzure

/-- `endGame` from `part_000`. -/
def endGame (s : GameState) : GameState :=
  { s with gameActive := false, gameOver := true }

/-- `moveToNextWord` from `part_000` (the `correct` argument only feeds the
status trace): mark the current word used, delete its attempt counter,
then advance the index or end the game.  With no current word the function
logs and returns. -/
def moveToNextWord (s : GameState) (_correct : Bool) : GameState :=
  match s.shuffledWords.get? s.currentWordIndex with
  | none => s
  | some currentWord =>
    let s1 := { s with
      usedWords := insertUnique s.usedWords currentWord.text,
      incorrectAttempts := eraseAttempts s.incorrectAttempts currentWord.text }
    let nextIndex := s.currentWordIndex + 1
    if s.shuffledWords.length ≤ nextIndex then endGame s1
    else { s1 with currentWordIndex := nextIndex }

/-- `handleSpeechResult` from `part_000`.  All the `setState` calls of one
invocation (including the updater that may call `moveToNextWord`) are
applied in program order.  On the incorrect paths the two processing flags
stay set: the code only clears them in a 100 ms `setTimeout`, modelled by
`unlockProcessing` below. -/
def handleSpeechResult (s : GameState) (transcript : String)
    (alternatives : Option (List Alt)) : GameState :=
  if !s.gameActive || s.gameOver then s
  else if s.isProcessingAttemptRef then s
  else
    let sR := { s with isProcessingAttemptRef := true }
    if s.isProcessingAttempt then sR
    else
      let sP := { sR with isProcessingAttempt := true }
      match sP.shuffledWords.get? sP.currentWordIndex with
      | none =>
        { sP with isProcessingAttempt := false, isProcessingAttemptRef := false }
      | some currentWord =>
        let currentAttempts := lookupAttempts sP.incorrectAttempts currentWord.text
        if 2 ≤ currentAttempts then
          moveToNextWord
            { sP with isProcessingAttempt := false, isProcessingAttemptRef := false }
            false
        else
          let candidates := allPossibleWords transcript alternatives
          let possibilities := possibilitiesOf transcript alternatives
          let targetWord := normalizeWord currentWord.text
          let isCorrect := evaluateMatch candidates targetWord
          let attemptNumber := currentAttempts + 1
          if 2 < attemptNumber then
            { sP with isProcessingAttempt := false, isProcessingAttemptRef := false }
          else
            let entry : GameLogEntry :=
              { word := currentWord.text, userAnswer := transcript,
                isCorrect := isCorrect, difficulty := currentWord.difficulty,
                attemptNumber := attemptNumber, possibilities := possibilities }
            let s1 := { sP with gameLog := sP.gameLog ++ [entry] }
            if isCorrect then
              { moveToNextWord s1 true with
                isProcessingAttempt := false, isProcessingAttemptRef := false }
            else
              let s2 := { s1 with
                incorrectAttempts :=
                  setAttempts s1.incorrectAttempts currentWord.text attemptNumber }
              if 2 ≤ attemptNumber then moveToNextWord s2 false
              else s2

/-- The 100 ms `setTimeout` that unlocks result processing after an
incorrect attempt. -/
def unlockProcessing (s : GameState) : GameState :=
  { s with isProcessingAttempt := false, isProcessingAttemptRef := false }

/-- `handleSkip` from `part_000`.  There is no missing-current-word guard:
with `currentWordIndex` out of range, `currentWord` is `undefined` and
`currentWord.text` throws a `TypeError`, modelled as `none`. -/
def handleSkip (s : GameState) : Option GameState :=
  if !s.gameActive || s.gameOver then some s
  else
    match s.shuffledWords.get? s.currentWordIndex with
    | none => none
    | some currentWord =>
      let attemptNumber := lookupAttempts s.incorrectAttempts currentWord.text + 1
      let entry : GameLogEntry :=
        { word := currentWord.text, userAnswer := "SKIPPED", isCorrect := false,
          difficulty := currentWord.difficulty, attemptNumber := attemptNumber,
          possibilities := [] }
      let s1 := { s with
        gameLog := s.gameLog ++ [entry],
        usedWords := insertUnique s.usedWords currentWord.text }
      if s.currentWordIndex < s.shuffledWords.length - 1 then
        some { s1 with currentWordIndex := s.currentWordIndex + 1 }
      else
        some (endGame s1)

end IndexAzure

/-! ### The Web Speech Index page — `src/src/pages/Index.tsx` -/

/-- Candidate words in `Index.tsx`: `transcript.toLowerCase().trim()` is
split on whitespace (no punctuation stripping), likewise each alternative,
all collected into one JS `Set`. -/
def webCandidates (transcript : String) (alternatives : Option (List Alt)) :
    List String :=
  let wordsHeard := splitWs (jsLowerTrim transcript)
  let s0 := addAll [] wordsHeard
  match alternatives with
  | some alts =>
    alts.foldl (fun s alt => addAll s (splitWs (jsLowerTrim alt.transcript))) s0
  | none => s0

/-- The `possibilities` array of `Index.tsx`: alternatives with confidence
above `0.1` with their raw transcripts, or the single raw transcript at
confidence `1.0` when no alternatives were provided. -/
def webPossibilities (transcript : String) (alternatives : Option (List Alt)) :
    List (String × Rat) :=
  match alternatives with
  | some alts =>
    (alts.filter fun p => 1 / 10 < p.confidence).map
      fun p => (p.transcript, p.confidence)
  | none => [(transcript, 1)]

namespace IndexWeb

/-- `endGame` from `Index.tsx`. -/
def endGame (s : GameState) : GameState :=
  { s with gameActive := false, gameOver := true }

/-- `moveToNextWord` from `Index.tsx`: unlike the Azure variant it has no
missing-word guard (reading `currentWord.text` would throw, modelled as
`none`) and it does not delete the word's attempt counter. -/
def moveToNextWord (s : GameState) (_correct : Bool) : Option GameState :=
  match s.shuffledWords.get? s.currentWordIndex with
  | none => none
  | some currentWord =>
    let nextIndex := s.currentWordIndex + 1
    let isLastWord := s.shuffledWords.length ≤ nextIndex
    let s1 := { s with usedWords := insertUnique s.usedWords currentWord.text }
    if !isLastWord then some { s1 with currentWordIndex := nextIndex }
    else some (endGame s1)

/-- `handleSpeechResult` from `Index.tsx`.  Structure as in the Azure
variant; the target is `currentWord.text.toLowerCase()` (no punctuation
stripping), and the processing flags on the incorrect paths are cleared
only by a 500 ms `setTimeout` (`unlockProcessing`). -/
def handleSpeechResult (s : GameState) (transcript : String)
    (alternatives : Option (List Alt)) : Option GameState :=
  if !s.gameActive || s.gameOver then some s
  else if s.isProcessingAttemptRef then some s
  else
    let sR := { s with isProcessingAttemptRef := true }
    if s.isProcessingAttempt then some sR
    else
      let sP := { sR with isProcessingAttempt := true }
      match sP.shuffledWords.get? sP.currentWordIndex with
      | none =>
        some { sP with isProcessingAttempt := false, isProcessingAttemptRef := false }
      | some currentWord =>
        let currentAttempts := lookupAttempts sP.incorrectAttempts currentWord.text
        if 2 ≤ currentAttempts then
          moveToNextWord
            { sP with isProcessingAttempt := false, isProcessingAttemptRef := false }
            false
        else
          let candidates := webCandidates transcript alternatives
          let possibilities := webPossibilities transcript alternatives
          let targetWord := jsToLower currentWord.text
          let isCorrect := evaluateMatch candidates targetWord
          let attemptNumber := currentAttempts + 1
          if 2 < attemptNumber then
            some { sP with isProcessingAttempt := false, isProcessingAttemptRef := false }
          else
            let entry : GameLogEntry :=
              { word := currentWord.text, userAnswer := transcript,
                isCorrect := isCorrect, difficulty := currentWord.difficulty,
                attemptNumber := attemptNumber, possibilities := possibilities }
            let s1 := { sP with gameLog := sP.gameLog ++ [entry] }
            if isCorrect then
              (moveToNextWord s1 true).map fun sM =>
                { sM with isProcessingAttempt := false, isProcessingAttemptRef := false }
            else
              let s2 := { s1 with
                incorrectAttempts :=
                  setAttempts s1.incorrectAttempts currentWord.text attemptNumber }
              if 2 ≤ attemptNumber then moveToNextWord s2 false
              else some s2

/-- The 500 ms `setTimeout` that unlocks result processing after an
incorrect attempt. -/
def unlockProcessing (s : GameState) : GameState :=
  { s with isProcessingAttempt := false, isProcessingAttemptRef := false }

end IndexWeb

/-! ### Recognition session — `src/src/components/SpeechRecognition.tsx` -/

/-- The error kinds distinguished by `recognition.onerror`
(`not-allowed`, `no-speech`, `audio-capture`, `network`, `aborted`, and the
catch-all `else`). -/
inductive RecErrorKind where
  | notAllowed
  | noSpeech
  | audioCapture
  | network
  | aborted
  | other
deriving DecidableEq

/-- The component-local session state of `SpeechRecognition.tsx` that the
claims touch: the `hasProcessedAnswer` guard ref, the `isHandlingResultRef`
ref, the error message, and the listening/processing flags. -/
structure RecognizerState where
  hasProcessedAnswer : Bool
  isHandlingResult : Bool
  errorMessage : String
  listening : Bool
  processing : Bool
deriving DecidableEq

/-- A recognition session together with the game page consuming its
results (`Index.tsx` wires `onResult` to its `handleSpeechResult`). -/
structure SessionState where
  recognizer : RecognizerState
  game : GameState
deriving DecidableEq

/-- `processTranscript`: rejected outright when `hasProcessedAnswer` is
already set; otherwise the flag is set first, the transcript is normalized
(`trim().toLowerCase()`) and `onResult` is invoked; the `finally` block
clears the processing/listening flags and the handling ref.  An exception
from `onResult` is swallowed by the `catch` (so the game state reverts to
what it was at the call, `Option.getD`). -/
def processTranscript (st : SessionState) (transcript : String)
    (alternatives : List Alt) : SessionState :=
  if st.recognizer.hasProcessedAnswer then st
  else
    let normalizedTranscript := jsTrimLower transcript
    let game1 :=
      (IndexWeb.handleSpeechResult st.game normalizedTranscript (some alternatives)).getD
        st.game
    { recognizer := { st.recognizer with
        hasProcessedAnswer := true, processing := false,
        listening := false, isHandlingResult := false },
      game := game1 }

/-- Delivery of one final-style result event (the `result.isFinal` branch of
`recognition.onresult` and the silence-timer expiry both funnel into
`processTranscript`). -/
def deliverFinal (st : SessionState) (ev : String × List Alt) : SessionState :=
  processTranscript st ev.1 ev.2

/-- The human-readable message `recognition.onerror` installs for each error
kind (`aborted` only adds a status line and keeps the previous message). -/
def errorMessageFor (prev : String) : RecErrorKind → String
  | .notAllowed =>
    "Microphone access was denied. Please allow microphone access in your browser settings and try again."
  | .noSpeech => "No speech detected. Please try speaking again."
  | .audioCapture =>
    "No microphone was found. Please ensure your microphone is properly connected."
  | .network => "Network error occurred. Please check your internet connection."
  | .aborted => prev
  | .other => "There was an error with speech recognition. Please try again."

/-- `recognition.onerror`: clear the processing/listening flags, install the
message for the error kind, stop the recognizer, clear the handling ref and
set `hasProcessedAnswer` — and never call `onResult`, so the game state is
untouched. -/
def onRecognitionError (st : SessionState) (kind : RecErrorKind) : SessionState :=
  { st with recognizer := { st.recognizer with
      processing := false,
      listening := false,
      errorMessage := errorMessageFor st.recognizer.errorMessage kind,
      isHandlingResult := false,
      hasProcessedAnswer := true } }

/-! ### Concrete sample states (used to evaluate the theorems on inputs) -/

def wCat : Word := ⟨"cat", "easy"⟩

def wDog : Word := ⟨"dog", "easy"⟩

/-- A fresh two-word game: first word `cat`, no misses yet, no guard set. -/
def sBase : GameState :=
  ⟨0, [wCat, wDog], true, false, [], [], [], false, false⟩

/-- Mid-game state in which `cat` already has one recorded miss. -/
def sOneMiss : GameState :=
  ⟨0, [wCat, wDog], true, false, [], [("cat", 1)], [], false, false⟩

/-- An active game whose shuffled list is empty, so no current word exists. -/
def sNoWord : GameState :=
  ⟨0, [], true, false, [], [], [], false, false⟩

/-- A live recognition session over the fresh two-word game. -/
def stSession : SessionState :=
  ⟨⟨false, false, "", true, false⟩, sBase⟩

/-! ### Helper lemmas -/

theorem toLower_isUpper (c : Char) : (Char.toLower c).isUpper = false := by
  have h65 : ((65 : UInt32)).toBitVec.toNat = 65 := by decide
  have h90 : ((90 : UInt32)).toBitVec.toNat = 90 := by decide
  unfold Char.toLower
  simp only []
  by_cases h : c.toNat ≥ 65 ∧ c.toNat ≤ 90
  · rw [if_pos h]
    unfold Char.isUpper
    have hv : (Char.toNat c + 32).isValidChar := Or.inl (by omega)
    rw [Char.ofNat, dif_pos hv]
    unfold Char.ofNatAux
    simp only [Bool.and_eq_false_iff, decide_eq_false_iff_not, UInt32.le_def,
      BitVec.le_def, BitVec.toNat_ofNatLt, h65, h90]
    right
    omega
  · rw [if_neg h]
    unfold Char.isUpper
    simp only [Bool.and_eq_false_iff, decide_eq_false_iff_not, UInt32.le_def,
      BitVec.le_def, h65, h90]
    simp only [Char.toNat, UInt32.toNat] at h
    omega

theorem mem_trimChars {l : List Char} {c : Char} (h : c ∈ trimChars l) : c ∈ l := by
  unfold trimChars at h
  rw [List.mem_reverse] at h
  have h1 := (List.dropWhile_sublist _).subset h
  rw [List.mem_reverse] at h1
  exact (List.dropWhile_sublist _).subset h1

theorem contains_iff_mem {l : List String} {w : String} :
    l.contains w = true ↔ w ∈ l := by
  simp [List.contains_iff_exists_mem_beq, beq_iff_eq]

theorem mem_insertUnique {l : List String} {w v : String} :
    v ∈ insertUnique l w ↔ v ∈ l ∨ v = w := by
  unfold insertUnique
  by_cases h : l.contains w
  · rw [if_pos h]
    rw [contains_iff_mem] at h
    constructor
    · exact Or.inl
    · rintro (hv | rfl)
      · exact hv
      · exact h
  · rw [if_neg h]
    simp

theorem nodup_insertUnique {l : List String} {w : String} (h : l.Nodup) :
    (insertUnique l w).Nodup := by
  unfold insertUnique
  by_cases hc : l.contains w
  · rwa [if_pos hc]
  · rw [if_neg hc]
    rw [Bool.not_eq_true] at hc
    have hw : w ∉ l := fun hm => by
      rw [← contains_iff_mem] at hm
      rw [hm] at hc
      cases hc
    simp [List.nodup_append, h, hw]

theorem mem_addAll {ws : List String} {l : List String} {v : String} :
    v ∈ addAll l ws ↔ v ∈ l ∨ v ∈ ws := by
  induction ws generalizing l with
  | nil => simp [addAll]
  | cons w ws ih =>
    unfold addAll at ih ⊢
    rw [List.foldl_cons, ih, mem_insertUnique, List.mem_cons]
    tauto

theorem nodup_addAll {ws l : List String} (h : l.Nodup) : (addAll l ws).Nodup := by
  induction ws generalizing l with
  | nil => exact h
  | cons w ws ih =>
    unfold addAll at ih ⊢
    rw [List.foldl_cons]
    exact ih (nodup_insertUnique h)

theorem mem_foldl_addAll {A : Type} (f : A → List String) (alts : List A)
    (init : List String) (v : String) :
    v ∈ alts.foldl (fun s a => addAll s (f a)) init ↔
      v ∈ init ∨ ∃ a ∈ alts, v ∈ f a := by
  induction alts generalizing init with
  | nil => simp
  | cons a alts ih =>
    rw [List.foldl_cons, ih, mem_addAll]
    simp only [List.mem_cons]
    constructor
    · rintro ((h | h) | ⟨b, hb, hv⟩)
      · exact Or.inl h
      · exact Or.inr ⟨a, Or.inl rfl, h⟩
      · exact Or.inr ⟨b, Or.inr hb, hv⟩
    · rintro (h | ⟨b, (rfl | hb), hv⟩)
      · exact Or.inl (Or.inl h)
      · exact Or.inl (Or.inr hv)
      · exact Or.inr ⟨b, hb, hv⟩

theorem nodup_foldl_addAll {A : Type} (f : A → List String) (alts : List A)
    {init : List String} (h : init.Nodup) :
    (alts.foldl (fun s a => addAll s (f a)) init).Nodup := by
  induction alts generalizing init with
  | nil => exact h
  | cons a alts ih =>
    rw [List.foldl_cons]
    exact ih (nodup_addAll h)

theorem normalizeWord_chars {s : String} {c : Char}
    (h : c ∈ (normalizeWord s).data) :
    c.isUpper = false ∧ isPunctCharJS c = false := by
  unfold normalizeWord at h
  simp only [String.data] at h
  have h1 := mem_trimChars h
  rw [List.mem_filter] at h1
  obtain ⟨h2, h3⟩ := h1
  rw [List.mem_map] at h2
  obtain ⟨c0, _, rfl⟩ := h2
  refine ⟨toLower_isUpper c0, ?_⟩
  simpa using h3

theorem mem_allPossibleWords (t : String) (a : Option (List Alt)) (v : String) :
    v ∈ allPossibleWords t a ↔
      ((∃ tok ∈ splitWs t, normalizeWord tok = v) ∨
        ∃ alt ∈ a.getD [], ∃ tok ∈ splitWs alt.transcript, normalizeWord tok = v) := by
  cases a with
  | none =>
    unfold allPossibleWords
    rw [mem_addAll]
    simp [List.mem_map, eq_comm]
  | some alts =>
    simp only [allPossibleWords]
    rw [mem_foldl_addAll (fun alt : Alt => (splitWs alt.transcript).map normalizeWord),
      mem_addAll]
    simp [List.mem_map, eq_comm]

theorem nodup_allPossibleWords (t : String) (a : Option (List Alt)) :
    (allPossibleWords t a).Nodup := by
  cases a with
  | none => exact nodup_addAll List.nodup_nil
  | some alts =>
    exact nodup_foldl_addAll (fun alt => (splitWs alt.transcript).map normalizeWord)
      alts (nodup_addAll List.nodup_nil)

theorem lookupAttempts_cons (p : String × Nat) (m : List (String × Nat))
    (w : String) :
    lookupAttempts (p :: m) w = if p.1 == w then p.2 else lookupAttempts m w := by
  unfold lookupAttempts
  by_cases h : p.1 == w <;> simp [List.find?_cons, h]

theorem lookupAttempts_setAttempts_self (m : List (String × Nat)) (w : String)
    (n : Nat) : lookupAttempts (setAttempts m w n) w = n := by
  unfold setAttempts
  by_cases h : m.any fun p => p.1 == w
  · rw [if_pos h]
    induction m with
    | nil => cases h
    | cons p m ih =>
      rw [List.map_cons]
      by_cases hp : p.1 == w
      · rw [if_pos hp, lookupAttempts_cons]
        simp
      · rw [if_neg hp, lookupAttempts_cons, if_neg hp]
        rw [List.any_cons] at h
        rcases (Bool.or_eq_true _ _).mp h with h1 | h1
        · exact absurd h1 hp
        · exact ih h1
  · rw [if_neg h]
    induction m with
    | nil =>
      rw [List.nil_append, lookupAttempts_cons]
      simp
    | cons p m ih =>
      rw [List.cons_append, lookupAttempts_cons]
      rw [List.any_cons] at h
      have hp : (p.1 == w) = false := by
        rcases hb : p.1 == w with _ | _
        · rfl
        · exact absurd (Bool.or_eq_true _ _ |>.mpr (Or.inl hb)) h
      rw [hp]
      simp only [Bool.false_eq_true, if_false]
      exact ih fun h1 => h ((Bool.or_eq_true _ _).mpr (Or.inr h1))

theorem lookupAttempts_setAttempts_other (m : List (String × Nat))
    (w v : String) (n : Nat) (hvw : v ≠ w) :
    lookupAttempts (setAttempts m w n) v = lookupAttempts m v := by
  have hwv : (w == v) = false := by
    rcases hb : w == v with _ | _
    · rfl
    · exact absurd (beq_iff_eq.mp hb).symm hvw
  have hmap : ∀ m0 : List (String × Nat),
      lookupAttempts (m0.map fun p => if p.1 == w then (w, n) else p) v =
        lookupAttempts m0 v := by
    intro m0
    induction m0 with
    | nil => rfl
    | cons p m0 ih =>
      rw [List.map_cons, lookupAttempts_cons]
      by_cases hp : p.1 == w
      · have hpv : (p.1 == v) = false := by
          rcases hb : p.1 == v with _ | _
          · rfl
          · exact absurd ((beq_iff_eq.mp hb) ▸ beq_iff_eq.mp hp) hvw
        rw [if_pos hp]
        simp only [hwv, Bool.false_eq_true, if_false]
        rw [lookupAttempts_cons, hpv]
        simp only [Bool.false_eq_true, if_false]
        exact ih
      · rw [if_neg hp, lookupAttempts_cons]
        by_cases hpv : p.1 == v
        · rw [if_pos hpv, if_pos hpv]
        · rw [if_neg hpv, if_neg hpv]
          exact ih
  have happ : ∀ m0 : List (String × Nat),
      lookupAttempts (m0 ++ [(w, n)]) v = lookupAttempts m0 v := by
    intro m0
    induction m0 with
    | nil =>
      rw [List.nil_append, lookupAttempts_cons, hwv]
      rfl
    | cons p m0 ih =>
      rw [List.cons_append, lookupAttempts_cons, lookupAttempts_cons]
      by_cases hpv : p.1 == v
      · rw [if_pos hpv, if_pos hpv]
      · rw [if_neg hpv, if_neg hpv]
        exact ih
  unfold setAttempts
  by_cases h : m.any fun p => p.1 == w
  · rw [if_pos h]
    exact hmap m
  · rw [if_neg h]
    exact happ m

theorem lookupAttempts_eraseAttempts_self (m : List (String × Nat))
    (w : String) : lookupAttempts (eraseAttempts m w) w = 0 := by
  induction m with
  | nil => rfl
  | cons p m ih =>
    unfold eraseAttempts at ih ⊢
    rw [List.filter_cons]
    by_cases hp : p.1 == w
    · have : (p.1 != w) = false := by simp [bne, hp]
      rw [this]
      simpa using ih
    · have : (p.1 != w) = true := by simp [bne, hp]
      rw [this]
      simp only [if_true]
      rw [lookupAttempts_cons, if_neg hp]
      exact ih

theorem lookupAttempts_eraseAttempts_other (m : List (String × Nat))
    (w v : String) (hvw : v ≠ w) :
    lookupAttempts (eraseAttempts m w) v = lookupAttempts m v := by
  induction m with
  | nil => rfl
  | cons p m ih =>
    unfold eraseAttempts at ih ⊢
    rw [List.filter_cons]
    by_cases hp : p.1 == w
    · have hbne : (p.1 != w) = false := by simp [bne, hp]
      rw [hbne]
      have hpv : (p.1 == v) = false := by
        rcases hb : p.1 == v with _ | _
        · rfl
        · exact absurd ((beq_iff_eq.mp hb) ▸ beq_iff_eq.mp hp) hvw
      simp only [Bool.false_eq_true, if_false]
      rw [lookupAttempts_cons, hpv]
      simp only [Bool.false_eq_true, if_false]
      exact ih
    · have hbne : (p.1 != w) = true := by simp [bne, hp]
      rw [hbne]
      simp only [if_true]
      rw [lookupAttempts_cons, lookupAttempts_cons]
      by_cases hpv : p.1 == v
      · rw [if_pos hpv, if_pos hpv]
      · rw [if_neg hpv, if_neg hpv]
        exact ih

theorem azure_move_eq (s : GameState) (c : Bool) (w : Word)
    (hw : s.shuffledWords.get? s.currentWordIndex = some w) :
    IndexAzure.moveToNextWord s c =
      (let s1 := { s with
         usedWords := insertUnique s.usedWords w.text,
         incorrectAttempts := eraseAttempts s.incorrectAttempts w.text }
       if s.shuffledWords.length ≤ s.currentWordIndex + 1 then
         { s1 with gameActive := false, gameOver := true }
       else { s1 with currentWordIndex := s.currentWordIndex + 1 }) := by
  simp only [IndexAzure.moveToNextWord, IndexAzure.endGame, hw]

theorem azure_result_eq (s : GameState) (w : Word) (t : String)
    (a : Option (List Alt))
    (hA : s.gameActive = true) (hO : s.gameOver = false)
    (hR : s.isProcessingAttemptRef = false) (hP : s.isProcessingAttempt = false)
    (hw : s.shuffledWords.get? s.currentWordIndex = some w)
    (hn : lookupAttempts s.incorrectAttempts w.text < 2) :
    IndexAzure.handleSpeechResult s t a =
      (let n := lookupAttempts s.incorrectAttempts w.text
       let isCorrect := evaluateMatch (allPossibleWords t a) (normalizeWord w.text)
       let entry : GameLogEntry :=
         ⟨w.text, t, isCorrect, w.difficulty, n + 1, possibilitiesOf t a⟩
       let s1 := { s with
         isProcessingAttemptRef := true, isProcessingAttempt := true,
         gameLog := s.gameLog ++ [entry] }
       if isCorrect then
         { IndexAzure.moveToNextWord s1 true with
           isProcessingAttempt := false, isProcessingAttemptRef := false }
       else
         let s2 := { s1 with
           incorrectAttempts := setAttempts s1.incorrectAttempts w.text (n + 1) }
         if 2 ≤ n + 1 then IndexAzure.moveToNextWord s2 false else s2) := by
  have h2 : ¬ 2 ≤ lookupAttempts s.incorrectAttempts w.text := by omega
  have h3 : ¬ 2 < lookupAttempts s.incorrectAttempts w.text + 1 := by omega
  simp only [IndexAzure.handleSpeechResult, hA, hO, hR, hP, hw, h2, h3,
    Bool.not_true, Bool.false_or, Bool.false_eq_true, if_false, ite_false]

theorem azure_skip_eq (s : GameState) (w : Word)
    (hA : s.gameActive = true) (hO : s.gameOver = false)
    (hw : s.shuffledWords.get? s.currentWordIndex = some w) :
    IndexAzure.handleSkip s =
      (let entry : GameLogEntry :=
         ⟨w.text, "SKIPPED", false, w.difficulty,
           lookupAttempts s.incorrectAttempts w.text + 1, []⟩
       let s1 := { s with
         gameLog := s.gameLog ++ [entry],
         usedWords := insertUnique s.usedWords w.text }
       if s.currentWordIndex < s.shuffledWords.length - 1 then
         some { s1 with currentWordIndex := s.currentWordIndex + 1 }
       else some { s1 with gameActive := false, gameOver := true }) := by
  simp only [IndexAzure.handleSkip, IndexAzure.endGame, hA, hO, hw,
    Bool.not_true, Bool.false_or, Bool.false_eq_true, if_false, ite_false]

theorem web_move_eq (s : GameState) (c : Bool) (w : Word)
    (hw : s.shuffledWords.get? s.currentWordIndex = some w) :
    IndexWeb.moveToNextWord s c =
      (let s1 := { s with usedWords := insertUnique s.usedWords w.text }
       if s.shuffledWords.length ≤ s.currentWordIndex + 1 then
         some { s1 with gameActive := false, gameOver := true }
       else some { s1 with currentWordIndex := s.currentWordIndex + 1 }) := by
  by_cases hl : s.shuffledWords.length ≤ s.currentWordIndex + 1
  · simp only [IndexWeb.moveToNextWord, IndexWeb.endGame, hw, hl, decide_True,
      iff_true, eq_iff_iff, Bool.not_true, Bool.false_eq_true, if_false,
      ite_false, if_true, ite_true]
  · simp only [IndexWeb.moveToNextWord, IndexWeb.endGame, hw, hl, decide_False,
      iff_false, eq_iff_iff, Bool.not_false, if_true, ite_true, if_false,
      ite_false, Bool.false_eq_true]

theorem web_result_eq (s : GameState) (w : Word) (t : String)
    (a : Option (List Alt))
    (hA : s.gameActive = true) (hO : s.gameOver = false)
    (hR : s.isProcessingAttemptRef = false) (hP : s.isProcessingAttempt = false)
    (hw : s.shuffledWords.get? s.currentWordIndex = some w)
    (hn : lookupAttempts s.incorrectAttempts w.text < 2) :
    IndexWeb.handleSpeechResult s t a =
      (let n := lookupAttempts s.incorrectAttempts w.text
       let isCorrect := evaluateMatch (webCandidates t a) (jsToLower w.text)
       let entry : GameLogEntry :=
         ⟨w.text, t, isCorrect, w.difficulty, n + 1, webPossibilities t a⟩
       let s1 := { s with
         isProcessingAttemptRef := true, isProcessingAttempt := true,
         gameLog := s.gameLog ++ [entry] }
       if isCorrect then
         (IndexWeb.moveToNextWord s1 true).map fun sM =>
           { sM with isProcessingAttempt := false, isProcessingAttemptRef := false }
       else
         let s2 := { s1 with
           incorrectAttempts := setAttempts s1.incorrectAttempts w.text (n + 1) }
         if 2 ≤ n + 1 then IndexWeb.moveToNextWord s2 false else some s2) := by
  have h2 : ¬ 2 ≤ lookupAttempts s.incorrectAttempts w.text := by omega
  have h3 : ¬ 2 < lookupAttempts s.incorrectAttempts w.text + 1 := by omega
  simp only [IndexWeb.handleSpeechResult, hA, hO, hR, hP, hw, h2, h3,
    Bool.not_true, Bool.false_or, Bool.false_eq_true, if_false, ite_false]

theorem evaluateMatch_iff (cands : List String) (target : String) :
    evaluateMatch cands target = true ↔
      ∃ c ∈ cands, c = target ∨ areHomonyms c target = true := by
  simp [evaluateMatch, List.any_eq_true, beq_iff_eq]

theorem evaluateMatch_cons (c : String) (rest : List String) (target : String)
    (h : c = target ∨ areHomonyms c target = true) :
    evaluateMatch (c :: rest) target = true := by
  rw [evaluateMatch, List.any_cons]
  rcases h with rfl | h
  · simp
  · simp [h]

theorem azure_move_gameLog (s : GameState) (c : Bool) :
    (IndexAzure.moveToNextWord s c).gameLog = s.gameLog := by
  unfold IndexAzure.moveToNextWord IndexAzure.endGame
  rcases h : s.shuffledWords.get? s.currentWordIndex with _ | w
  · rfl
  · by_cases hl : s.shuffledWords.length ≤ s.currentWordIndex + 1 <;> simp [hl]

theorem azure_result_max (s : GameState) (w : Word) (t : String)
    (a : Option (List Alt))
    (hA : s.gameActive = true) (hO : s.gameOver = false)
    (hR : s.isProcessingAttemptRef = false) (hP : s.isProcessingAttempt = false)
    (hw : s.shuffledWords.get? s.currentWordIndex = some w)
    (hn : 2 ≤ lookupAttempts s.incorrectAttempts w.text) :
    IndexAzure.handleSpeechResult s t a =
      IndexAzure.moveToNextWord
        { s with isProcessingAttempt := false, isProcessingAttemptRef := false }
        false := by
  simp only [IndexAzure.handleSpeechResult, hA, hO, hR, hP, hw, hn,
    Bool.not_true, Bool.false_or, Bool.false_eq_true, if_false, ite_false,
    if_true, ite_true]

theorem azure_result_none (s : GameState) (t : String) (a : Option (List Alt))
    (hP : s.isProcessingAttempt = false)
    (hw : s.shuffledWords.get? s.currentWordIndex = none) :
    IndexAzure.handleSpeechResult s t a = s := by
  rw [List.get?_eq_getElem?] at hw
  obtain ⟨ci, sw, ga, go, uw, ia, gl, r, p⟩ := s
  simp only at hP hw
  subst hP
  by_cases hA : (!ga || go) = true
  · simp [IndexAzure.handleSpeechResult, hA]
  · rcases r with _ | _
    · simp [IndexAzure.handleSpeechResult, hA, hw]
    · simp [IndexAzure.handleSpeechResult, hA]

theorem azure_skip_none (s : GameState)
    (hA : s.gameActive = true) (hO : s.gameOver = false)
    (hw : s.shuffledWords.get? s.currentWordIndex = none) :
    IndexAzure.handleSkip s = none := by
  rw [List.get?_eq_getElem?] at hw
  simp [IndexAzure.handleSkip, hA, hO, hw]


theorem azure_step_log (s : GameState) (w : Word) (t : String)
    (a : Option (List Alt))
    (hA : s.gameActive = true) (hO : s.gameOver = false)
    (hR : s.isProcessingAttemptRef = false) (hP : s.isProcessingAttempt = false)
    (hw : s.shuffledWords.get? s.currentWordIndex = some w)
    (hn : lookupAttempts s.incorrectAttempts w.text < 2) :
    (IndexAzure.handleSpeechResult s t a).gameLog =
      s.gameLog ++
        [⟨w.text, t, evaluateMatch (allPossibleWords t a) (normalizeWord w.text),
          w.difficulty, lookupAttempts s.incorrectAttempts w.text + 1,
          possibilitiesOf t a⟩] := by
  rw [azure_result_eq s w t a hA hO hR hP hw hn]
  by_cases hc : evaluateMatch (allPossibleWords t a) (normalizeWord w.text) = true
  · simp only [hc, if_true, ite_true, azure_move_gameLog]
  · rw [Bool.not_eq_true] at hc
    simp only [hc, Bool.false_eq_true, if_false, ite_false]
    by_cases hn1 : 2 ≤ lookupAttempts s.incorrectAttempts w.text + 1
    · simp only [hn1, if_true, ite_true, azure_move_gameLog]
    · simp only [hn1, if_false, ite_false]

theorem web_move_map_log (X : GameState) (c : Bool) (w : Word)
    (hXw : X.shuffledWords.get? X.currentWordIndex = some w) :
    ∃ s1,
      (IndexWeb.moveToNextWord X c).map (fun sM =>
        { sM with isProcessingAttempt := false, isProcessingAttemptRef := false }) =
          some s1 ∧
      s1.gameLog = X.gameLog := by
  rw [web_move_eq X c w hXw]
  by_cases hl : X.shuffledWords.length ≤ X.currentWordIndex + 1
  · simp only [hl, if_true, ite_true, Option.map_some]
    exact ⟨_, rfl, rfl⟩
  · simp only [hl, if_false, ite_false, Option.map_some]
    exact ⟨_, rfl, rfl⟩

theorem web_move_some_log (X : GameState) (c : Bool) (w : Word)
    (hXw : X.shuffledWords.get? X.currentWordIndex = some w) :
    ∃ s1, IndexWeb.moveToNextWord X c = some s1 ∧ s1.gameLog = X.gameLog := by
  rw [web_move_eq X c w hXw]
  by_cases hl : X.shuffledWords.length ≤ X.currentWordIndex + 1
  · simp only [hl, if_true, ite_true]
    exact ⟨_, rfl, rfl⟩
  · simp only [hl, if_false, ite_false]
    exact ⟨_, rfl, rfl⟩

theorem web_step_some_log (s : GameState) (w : Word) (t : String)
    (a : Option (List Alt))
    (hA : s.gameActive = true) (hO : s.gameOver = false)
    (hR : s.isProcessingAttemptRef = false) (hP : s.isProcessingAttempt = false)
    (hw : s.shuffledWords.get? s.currentWordIndex = some w)
    (hn : lookupAttempts s.incorrectAttempts w.text < 2) :
    ∃ s1, IndexWeb.handleSpeechResult s t a = some s1 ∧
      s1.gameLog = s.gameLog ++
        [⟨w.text, t, evaluateMatch (webCandidates t a) (jsToLower w.text),
          w.difficulty, lookupAttempts s.incorrectAttempts w.text + 1,
          webPossibilities t a⟩] := by
  rw [web_result_eq s w t a hA hO hR hP hw hn]
  by_cases hc : evaluateMatch (webCandidates t a) (jsToLower w.text) = true
  · simp only [hc, if_true, ite_true]
    exact web_move_map_log _ true w hw
  · rw [Bool.not_eq_true] at hc
    simp only [hc, Bool.false_eq_true, if_false, ite_false]
    by_cases hn1 : 2 ≤ lookupAttempts s.incorrectAttempts w.text + 1
    · simp only [hn1, if_true, ite_true]
      exact web_move_some_log _ false w hw
    · simp only [hn1, if_false, ite_false]
      exact ⟨_, rfl, rfl⟩

theorem processTranscript_processed (st : SessionState) (t : String)
    (a : List Alt) (h : st.recognizer.hasProcessedAnswer = true) :
    processTranscript st t a = st := by
  simp [processTranscript, h]

theorem foldl_deliverFinal_processed (st : SessionState)
    (h : st.recognizer.hasProcessedAnswer = true)
    (evs : List (String × List Alt)) :
    evs.foldl deliverFinal st = st := by
  induction evs with
  | nil => rfl
  | cons e evs ih =>
    rw [List.foldl_cons, deliverFinal, processTranscript_processed st e.1 e.2 h]
    exact ih

theorem web_guard_rejects (g : GameState) (t : String) (a : Option (List Alt))
    (h : g.isProcessingAttemptRef = true) :
    IndexWeb.handleSpeechResult g t a = some g := by
  by_cases hA : (!g.gameActive || g.gameOver) = true
  · simp [IndexWeb.handleSpeechResult, hA]
  · simp [IndexWeb.handleSpeechResult, hA, h]


theorem areHomonyms_iff (a b : String) :
    areHomonyms a b = true ↔
      (jsToLower a ≠ jsToLower b ∧
        ∃ g ∈ HOMONYM_GROUPS, jsToLower a ∈ g.words ∧ jsToLower b ∈ g.words) := by
  by_cases h : jsToLower a = jsToLower b
  · simp [areHomonyms, h]
  · simp [areHomonyms, h, List.any_eq_true, List.contains_iff_exists_mem_beq,
      beq_iff_eq]

theorem areHomonyms_symm (a b : String) : areHomonyms a b = areHomonyms b a := by
  have key : ∀ x y : String, areHomonyms x y = true → areHomonyms y x = true := by
    intro x y h
    rw [areHomonyms_iff] at h ⊢
    obtain ⟨hne, g, hg, hx, hy⟩ := h
    exact ⟨Ne.symm hne, g, hg, hy, hx⟩
  rcases hab : areHomonyms a b with _ | _
  · rcases hba : areHomonyms b a with _ | _
    · rfl
    · rw [key b a hba] at hab
      exact absurd hab (by decide)
  · exact (key a b hab).symm

theorem areHomonyms_irrefl (a : String) : areHomonyms a a = false := by
  simp [areHomonyms]

/-- C2: `areHomonyms a b` is true exactly when the case-folded words are
distinct and some homophone group contains both; the relation is symmetric
and irreflexive. -/
theorem claim_C2_homophone_equivalence (a b c : String) :
    (areHomonyms a b = true ↔
      (jsToLower a ≠ jsToLower b ∧
        ∃ g ∈ HOMONYM_GROUPS, jsToLower a ∈ g.words ∧ jsToLower b ∈ g.words)) ∧
    areHomonyms a b = areHomonyms b a ∧
    areHomonyms c c = false :=
  ⟨areHomonyms_iff a b, areHomonyms_symm a b, areHomonyms_irrefl c⟩

/-- C1: under an adjudication of the current word, the appended log entry is
correct exactly when some candidate equals the normalized target or is one of
its homophones, and the matching loop accepts as soon as its first candidate
matches, whatever follows. -/
theorem claim_C1_match_evaluation (s : GameState) (w : Word) (t : String)
    (a : Option (List Alt))
    (hA : s.gameActive = true) (hO : s.gameOver = false)
    (hR : s.isProcessingAttemptRef = false) (hP : s.isProcessingAttempt = false)
    (hw : s.shuffledWords.get? s.currentWordIndex = some w)
    (hn : lookupAttempts s.incorrectAttempts w.text < 2) :
    (∃ e : GameLogEntry,
      (IndexAzure.handleSpeechResult s t a).gameLog = s.gameLog ++ [e] ∧
      (e.isCorrect = true ↔
        ∃ cand ∈ allPossibleWords t a,
          cand = normalizeWord w.text ∨
            areHomonyms cand (normalizeWord w.text) = true)) ∧
    (∀ cand rest,
      (cand = normalizeWord w.text ∨
        areHomonyms cand (normalizeWord w.text) = true) →
      evaluateMatch (cand :: rest) (normalizeWord w.text) = true) := by
  refine ⟨⟨_, azure_step_log s w t a hA hO hR hP hw hn, ?_⟩,
    fun cand rest h => evaluateMatch_cons cand rest _ h⟩
  exact evaluateMatch_iff _ _

theorem claim_C1_witness :
    sBase.gameActive = true ∧ sBase.gameOver = false ∧
    sBase.isProcessingAttemptRef = false ∧ sBase.isProcessingAttempt = false ∧
    sBase.shuffledWords.get? sBase.currentWordIndex = some wCat ∧
    lookupAttempts sBase.incorrectAttempts wCat.text < 2 ∧
    ((∃ e : GameLogEntry,
      (IndexAzure.handleSpeechResult sBase "hat" none).gameLog =
        sBase.gameLog ++ [e] ∧
      (e.isCorrect = true ↔
        ∃ cand ∈ allPossibleWords "hat" none,
          cand = normalizeWord wCat.text ∨
            areHomonyms cand (normalizeWord wCat.text) = true)) ∧
    (∀ cand rest,
      (cand = normalizeWord wCat.text ∨
        areHomonyms cand (normalizeWord wCat.text) = true) →
      evaluateMatch (cand :: rest) (normalizeWord wCat.text) = true)) :=
  ⟨rfl, rfl, rfl, rfl, rfl, by decide,
    claim_C1_match_evaluation sBase wCat "hat" none rfl rfl rfl rfl rfl (by decide)⟩

/-- C9: the candidate set built by the Azure page is exactly the
`normalizeWord` image of the whitespace tokens of the transcript and of every
alternative, with duplicates collapsed, and every candidate is lowercase and
free of the stripped punctuation characters. -/
theorem claim_C9_normalizer (t : String) (a : Option (List Alt)) :
    (∀ v, v ∈ allPossibleWords t a ↔
      ((∃ tok ∈ splitWs t, normalizeWord tok = v) ∨
        ∃ alt ∈ a.getD [], ∃ tok ∈ splitWs alt.transcript,
          normalizeWord tok = v)) ∧
    (allPossibleWords t a).Nodup ∧
    (∀ v ∈ allPossibleWords t a, ∀ ch ∈ v.data,
      ch.isUpper = false ∧ isPunctCharJS ch = false) := by
  refine ⟨fun v => mem_allPossibleWords t a v, nodup_allPossibleWords t a, ?_⟩
  intro v hv ch hch
  rcases (mem_allPossibleWords t a v).mp hv with ⟨tok, _, rfl⟩ | ⟨alt, _, tok, _, rfl⟩
  · exact normalizeWord_chars hch
  · exact normalizeWord_chars hch

/-- C5: a recognition error touches only the recognizer state — the game log,
attempt counters and word index are untouched — and it marks the session
processed, so any later final event of the session is also ignored. -/
theorem claim_C5_error_aborts (st : SessionState) (k : RecErrorKind)
    (t : String) (a : List Alt) :
    (onRecognitionError st k).game = st.game ∧
    (onRecognitionError st k).game.gameLog = st.game.gameLog ∧
    (onRecognitionError st k).game.incorrectAttempts = st.game.incorrectAttempts ∧
    (onRecognitionError st k).game.currentWordIndex = st.game.currentWordIndex ∧
    (onRecognitionError st k).recognizer.listening = false ∧
    (onRecognitionError st k).recognizer.hasProcessedAnswer = true ∧
    processTranscript (onRecognitionError st k) t a = onRecognitionError st k :=
  ⟨rfl, rfl, rfl, rfl, rfl, rfl, processTranscript_processed _ t a rfl⟩


/-- C3: delivering a final result to an unprocessed session adjudicates once —
`hasProcessedAnswer` comes out set, exactly one log entry is appended, every
subsequently delivered final event leaves the session unchanged, and the
controller-side `isProcessingAttemptRef` guard likewise rejects any result
arriving while it is set. -/
theorem claim_C3_exactly_one_adjudication (st : SessionState) (w : Word)
    (t : String) (a : List Alt)
    (hF : st.recognizer.hasProcessedAnswer = false)
    (hA : st.game.gameActive = true) (hO : st.game.gameOver = false)
    (hR : st.game.isProcessingAttemptRef = false)
    (hP : st.game.isProcessingAttempt = false)
    (hw : st.game.shuffledWords.get? st.game.currentWordIndex = some w)
    (hn : lookupAttempts st.game.incorrectAttempts w.text < 2) :
    (∃ e : GameLogEntry,
      (processTranscript st t a).game.gameLog = st.game.gameLog ++ [e]) ∧
    (processTranscript st t a).recognizer.hasProcessedAnswer = true ∧
    (∀ evs : List (String × List Alt),
      evs.foldl deliverFinal (processTranscript st t a) = processTranscript st t a) ∧
    (∀ (g : GameState) (t2 : String) (a2 : Option (List Alt)),
      g.isProcessingAttemptRef = true →
      IndexWeb.handleSpeechResult g t2 a2 = some g) := by
  obtain ⟨s1, h1, h2⟩ :=
    web_step_some_log st.game w (jsTrimLower t) (some a) hA hO hR hP hw hn
  have hpt : processTranscript st t a =
      ⟨⟨true, false, st.recognizer.errorMessage, false, false⟩, s1⟩ := by
    simp only [processTranscript, hF, Bool.false_eq_true, if_false, ite_false,
      h1, Option.getD_some]
  refine ⟨⟨_, by rw [hpt]; exact h2⟩, ?_, ?_,
    fun g t2 a2 hg => web_guard_rejects g t2 a2 hg⟩
  · rw [hpt]
  · intro evs
    apply foldl_deliverFinal_processed
    rw [hpt]

theorem claim_C3_witness :
    stSession.recognizer.hasProcessedAnswer = false ∧
    stSession.game.gameActive = true ∧ stSession.game.gameOver = false ∧
    stSession.game.isProcessingAttemptRef = false ∧
    stSession.game.isProcessingAttempt = false ∧
    stSession.game.shuffledWords.get? stSession.game.currentWordIndex = some wCat ∧
    lookupAttempts stSession.game.incorrectAttempts wCat.text < 2 ∧
    ((∃ e : GameLogEntry,
      (processTranscript stSession "cat" []).game.gameLog =
        stSession.game.gameLog ++ [e]) ∧
    (processTranscript stSession "cat" []).recognizer.hasProcessedAnswer = true ∧
    (∀ evs : List (String × List Alt),
      evs.foldl deliverFinal (processTranscript stSession "cat" []) =
        processTranscript stSession "cat" []) ∧
    (∀ (g : GameState) (t2 : String) (a2 : Option (List Alt)),
      g.isProcessingAttemptRef = true →
      IndexWeb.handleSpeechResult g t2 a2 = some g)) :=
  ⟨rfl, rfl, rfl, rfl, rfl, rfl, by decide,
    claim_C3_exactly_one_adjudication stSession wCat "cat" []
      rfl rfl rfl rfl rfl rfl (by decide)⟩

/-- C10: for an adjudicated attempt on the Web Speech page, the logged
`possibilities` are exactly the provided alternatives with confidence above
`0.1` in their given order, and the single pair `(transcript, 1)` when no
alternatives were provided. -/
theorem claim_C10_possibilities (s : GameState) (w : Word) (t : String)
    (a : Option (List Alt))
    (hA : s.gameActive = true) (hO : s.gameOver = false)
    (hR : s.isProcessingAttemptRef = false) (hP : s.isProcessingAttempt = false)
    (hw : s.shuffledWords.get? s.currentWordIndex = some w)
    (hn : lookupAttempts s.incorrectAttempts w.text < 2) :
    ∃ s1, IndexWeb.handleSpeechResult s t a = some s1 ∧
      ∃ e : GameLogEntry, s1.gameLog = s.gameLog ++ [e] ∧
        (∀ alts, a = some alts →
          e.possibilities =
            (alts.filter fun p => 1 / 10 < p.confidence).map
              fun p => (p.transcript, p.confidence)) ∧
        (a = none → e.possibilities = [(t, 1)]) := by
  obtain ⟨s1, h1, h2⟩ := web_step_some_log s w t a hA hO hR hP hw hn
  refine ⟨s1, h1, _, h2, ?_, ?_⟩
  · rintro alts rfl
    rfl
  · rintro rfl
    rfl

theorem claim_C10_witness :
    sBase.gameActive = true ∧ sBase.gameOver = false ∧
    sBase.isProcessingAttemptRef = false ∧ sBase.isProcessingAttempt = false ∧
    sBase.shuffledWords.get? sBase.currentWordIndex = some wCat ∧
    lookupAttempts sBase.incorrectAttempts wCat.text < 2 ∧
    (∃ s1, IndexWeb.handleSpeechResult sBase "cat" (some [⟨"cat", 1⟩, ⟨"bat", 0⟩]) = some s1 ∧
      ∃ e : GameLogEntry, s1.gameLog = sBase.gameLog ++ [e] ∧
        (∀ alts, (some [⟨"cat", 1⟩, ⟨"bat", 0⟩] : Option (List Alt)) = some alts →
          e.possibilities =
            (alts.filter fun p => 1 / 10 < p.confidence).map
              fun p => (p.transcript, p.confidence)) ∧
        ((some [⟨"cat", 1⟩, ⟨"bat", 0⟩] : Option (List Alt)) = none →
          e.possibilities = [("cat", 1)])) :=
  ⟨rfl, rfl, rfl, rfl, rfl, by decide,
    claim_C10_possibilities sBase wCat "cat" (some [⟨"cat", 1⟩, ⟨"bat", 0⟩])
      rfl rfl rfl rfl rfl (by decide)⟩


/-- C6: during an active game a skip appends exactly one log entry with the
sentinel answer `SKIPPED` and `isCorrect = false`, marks the current word
used, and advances to the next word or ends the game on the last one — with
no assumption on the word's attempt count. -/
theorem claim_C6_skip (s : GameState) (w : Word)
    (hA : s.gameActive = true) (hO : s.gameOver = false)
    (hw : s.shuffledWords.get? s.currentWordIndex = some w) :
    ∃ s1, IndexAzure.handleSkip s = some s1 ∧
      s1.gameLog = s.gameLog ++
        [⟨w.text, "SKIPPED", false, w.difficulty,
          lookupAttempts s.incorrectAttempts w.text + 1, []⟩] ∧
      w.text ∈ s1.usedWords ∧
      ((s.currentWordIndex < s.shuffledWords.length - 1 →
        s1.currentWordIndex = s.currentWordIndex + 1 ∧
        s1.gameOver = false ∧ s1.gameActive = true) ∧
       (s.shuffledWords.length - 1 ≤ s.currentWordIndex →
        s1.gameOver = true ∧ s1.gameActive = false)) := by
  rw [azure_skip_eq s w hA hO hw]
  by_cases hl : s.currentWordIndex < s.shuffledWords.length - 1
  · simp only [hl, if_true, ite_true]
    refine ⟨_, rfl, rfl, mem_insertUnique.mpr (Or.inr rfl), ?_, ?_⟩
    · intro _
      exact ⟨rfl, hO, hA⟩
    · intro h
      omega
  · simp only [hl, if_false, ite_false]
    refine ⟨_, rfl, rfl, mem_insertUnique.mpr (Or.inr rfl), ?_, ?_⟩
    · intro h
      exact h.elim
    · intro _
      exact ⟨rfl, rfl⟩

theorem claim_C6_witness :
    sOneMiss.gameActive = true ∧ sOneMiss.gameOver = false ∧
    sOneMiss.shuffledWords.get? sOneMiss.currentWordIndex = some wCat ∧
    (∃ s1, IndexAzure.handleSkip sOneMiss = some s1 ∧
      s1.gameLog = sOneMiss.gameLog ++
        [⟨wCat.text, "SKIPPED", false, wCat.difficulty,
          lookupAttempts sOneMiss.incorrectAttempts wCat.text + 1, []⟩] ∧
      wCat.text ∈ s1.usedWords ∧
      ((sOneMiss.currentWordIndex < sOneMiss.shuffledWords.length - 1 →
        s1.currentWordIndex = sOneMiss.currentWordIndex + 1 ∧
        s1.gameOver = false ∧ s1.gameActive = true) ∧
       (sOneMiss.shuffledWords.length - 1 ≤ sOneMiss.currentWordIndex →
        s1.gameOver = true ∧ s1.gameActive = false))) :=
  ⟨rfl, rfl, rfl, claim_C6_skip sOneMiss wCat rfl rfl rfl⟩

/-- C7 counterexample: in `sOneMiss` the word `cat` has one recorded miss;
skipping retires `cat` (the index moves on to `dog`), yet its attempt-counter
entry survives in the map with value 1 — `handleSkip` never deletes it.  This
refutes the claim that the counter is removed whenever the word is retired by
a skip. -/
theorem claim_C7_counterexample :
    (IndexAzure.handleSkip sOneMiss).map
        (fun s1 => (s1.currentWordIndex, lookupAttempts s1.incorrectAttempts "cat")) =
      some (1, 1) := by decide

/-- C7 amended: the counter is created by the first miss and removed when the
word is retired by a correct answer or by a second miss; an explicit skip
leaves the attempts map unchanged. -/
theorem claim_C7_amended (s : GameState) (w : Word) (t : String)
    (a : Option (List Alt))
    (hA : s.gameActive = true) (hO : s.gameOver = false)
    (hR : s.isProcessingAttemptRef = false) (hP : s.isProcessingAttempt = false)
    (hw : s.shuffledWords.get? s.currentWordIndex = some w) :
    (evaluateMatch (allPossibleWords t a) (normalizeWord w.text) = true →
      lookupAttempts s.incorrectAttempts w.text < 2 →
      lookupAttempts (IndexAzure.handleSpeechResult s t a).incorrectAttempts w.text = 0) ∧
    (evaluateMatch (allPossibleWords t a) (normalizeWord w.text) = false →
      lookupAttempts s.incorrectAttempts w.text = 1 →
      lookupAttempts (IndexAzure.handleSpeechResult s t a).incorrectAttempts w.text = 0) ∧
    (evaluateMatch (allPossibleWords t a) (normalizeWord w.text) = false →
      lookupAttempts s.incorrectAttempts w.text = 0 →
      lookupAttempts (IndexAzure.handleSpeechResult s t a).incorrectAttempts w.text = 1) ∧
    (∀ s1, IndexAzure.handleSkip s = some s1 →
      s1.incorrectAttempts = s.incorrectAttempts) := by
  refine ⟨?_, ?_, ?_, ?_⟩
  · intro hc hn
    rw [azure_result_eq s w t a hA hO hR hP hw hn]
    simp only [hc, if_true, ite_true, IndexAzure.moveToNextWord,
      IndexAzure.endGame, hw]
    by_cases hl : s.shuffledWords.length ≤ s.currentWordIndex + 1 <;>
      simp only [hl, if_true, ite_true, if_false, ite_false] <;>
      exact lookupAttempts_eraseAttempts_self _ _
  · intro hc h1
    rw [azure_result_eq s w t a hA hO hR hP hw (by omega)]
    simp only [hc, Bool.false_eq_true, if_false, ite_false, h1,
      IndexAzure.moveToNextWord, IndexAzure.endGame, hw]
    have h2 : 2 ≤ 1 + 1 := by omega
    simp only [h2, if_true, ite_true]
    by_cases hl : s.shuffledWords.length ≤ s.currentWordIndex + 1 <;>
      simp only [hl, if_true, ite_true, if_false, ite_false] <;>
      exact lookupAttempts_eraseAttempts_self _ _
  · intro hc h0
    rw [azure_result_eq s w t a hA hO hR hP hw (by omega)]
    simp only [hc, Bool.false_eq_true, if_false, ite_false, h0]
    have h2 : ¬ 2 ≤ 0 + 1 := by omega
    simp only [h2, if_false, ite_false]
    exact lookupAttempts_setAttempts_self _ _ _
  · intro s1 h1
    rw [azure_skip_eq s w hA hO hw] at h1
    by_cases hl : s.currentWordIndex < s.shuffledWords.length - 1
    · simp only [hl, if_true, ite_true, Option.some_inj] at h1
      rw [← h1]
    · simp only [hl, if_false, ite_false, Option.some_inj] at h1
      rw [← h1]

theorem claim_C7_amended_witness :
    sOneMiss.gameActive = true ∧ sOneMiss.gameOver = false ∧
    sOneMiss.isProcessingAttemptRef = false ∧
    sOneMiss.isProcessingAttempt = false ∧
    sOneMiss.shuffledWords.get? sOneMiss.currentWordIndex = some wCat ∧
    ((evaluateMatch (allPossibleWords "cat" none) (normalizeWord wCat.text) = true →
      lookupAttempts sOneMiss.incorrectAttempts wCat.text < 2 →
      lookupAttempts (IndexAzure.handleSpeechResult sOneMiss "cat" none).incorrectAttempts wCat.text = 0) ∧
    (evaluateMatch (allPossibleWords "cat" none) (normalizeWord wCat.text) = false →
      lookupAttempts sOneMiss.incorrectAttempts wCat.text = 1 →
      lookupAttempts (IndexAzure.handleSpeechResult sOneMiss "cat" none).incorrectAttempts wCat.text = 0) ∧
    (evaluateMatch (allPossibleWords "cat" none) (normalizeWord wCat.text) = false →
      lookupAttempts sOneMiss.incorrectAttempts wCat.text = 0 →
      lookupAttempts (IndexAzure.handleSpeechResult sOneMiss "cat" none).incorrectAttempts wCat.text = 1) ∧
    (∀ s1, IndexAzure.handleSkip sOneMiss = some s1 →
      s1.incorrectAttempts = sOneMiss.incorrectAttempts)) :=
  ⟨rfl, rfl, rfl, rfl, rfl,
    claim_C7_amended sOneMiss wCat "cat" none rfl rfl rfl rfl rfl⟩

/-- C8 counterexample: with an active game but an empty shuffled list there is
no current word; `handleSkip` reads `currentWord.text` without any guard, so
it throws (modelled as `none`) instead of logging and dropping the event. -/
theorem claim_C8_counterexample : IndexAzure.handleSkip sNoWord = none := by
  decide

/-- C8 amended: an adjudication event with no current word is dropped without
any state change, but a skip event with no current word throws — only
`handleSpeechResult` has the missing-word guard. -/
theorem claim_C8_amended (s : GameState) (t : String) (a : Option (List Alt))
    (hP : s.isProcessingAttempt = false)
    (hw : s.shuffledWords.get? s.currentWordIndex = none) :
    IndexAzure.handleSpeechResult s t a = s ∧
    (s.gameActive = true → s.gameOver = false →
      IndexAzure.handleSkip s = none) :=
  ⟨azure_result_none s t a hP hw,
    fun hA hO => azure_skip_none s hA hO hw⟩

theorem claim_C8_amended_witness :
    sNoWord.isProcessingAttempt = false ∧
    sNoWord.shuffledWords.get? sNoWord.currentWordIndex = none ∧
    (IndexAzure.handleSpeechResult sNoWord "cat" none = sNoWord ∧
    (sNoWord.gameActive = true → sNoWord.gameOver = false →
      IndexAzure.handleSkip sNoWord = none)) :=
  ⟨rfl, rfl, claim_C8_amended sNoWord "cat" none rfl rfl⟩


/-- C4: on an incorrect adjudication, a word with no recorded miss keeps the
game on the same word with its counter at 1; a word with one recorded miss
advances the game (or ends it on the last word); a word already at two misses
advances without logging anything; and no transition ever pushes a counter
above 2. -/
theorem claim_C4_attempt_cap (s : GameState) (w : Word) (t : String)
    (a : Option (List Alt))
    (hA : s.gameActive = true) (hO : s.gameOver = false)
    (hR : s.isProcessingAttemptRef = false) (hP : s.isProcessingAttempt = false)
    (hw : s.shuffledWords.get? s.currentWordIndex = some w)
    (hmiss : evaluateMatch (allPossibleWords t a) (normalizeWord w.text) = false) :
    (lookupAttempts s.incorrectAttempts w.text = 0 →
      (IndexAzure.handleSpeechResult s t a).currentWordIndex = s.currentWordIndex ∧
      (IndexAzure.handleSpeechResult s t a).gameOver = false ∧
      (IndexAzure.handleSpeechResult s t a).gameActive = true ∧
      lookupAttempts (IndexAzure.handleSpeechResult s t a).incorrectAttempts w.text = 1) ∧
    (lookupAttempts s.incorrectAttempts w.text = 1 →
      ((s.currentWordIndex + 1 < s.shuffledWords.length →
        (IndexAzure.handleSpeechResult s t a).currentWordIndex = s.currentWordIndex + 1 ∧
        (IndexAzure.handleSpeechResult s t a).gameOver = false) ∧
       (s.shuffledWords.length ≤ s.currentWordIndex + 1 →
        (IndexAzure.handleSpeechResult s t a).gameOver = true ∧
        (IndexAzure.handleSpeechResult s t a).gameActive = false))) ∧
    (2 ≤ lookupAttempts s.incorrectAttempts w.text →
      (IndexAzure.handleSpeechResult s t a).gameLog = s.gameLog ∧
      ((s.currentWordIndex + 1 < s.shuffledWords.length →
        (IndexAzure.handleSpeechResult s t a).currentWordIndex = s.currentWordIndex + 1) ∧
       (s.shuffledWords.length ≤ s.currentWordIndex + 1 →
        (IndexAzure.handleSpeechResult s t a).gameOver = true))) ∧
    (∀ v, lookupAttempts (IndexAzure.handleSpeechResult s t a).incorrectAttempts v ≤
      max (lookupAttempts s.incorrectAttempts v) 2) := by
  refine ⟨?_, ?_, ?_, ?_⟩
  · intro h0
    rw [azure_result_eq s w t a hA hO hR hP hw (by omega)]
    simp only [hmiss, Bool.false_eq_true, if_false, ite_false, h0]
    have h2 : ¬ 2 ≤ 0 + 1 := by omega
    simp only [h2, if_false, ite_false]
    exact ⟨by trivial, hO, hA, lookupAttempts_setAttempts_self _ _ _⟩
  · intro h1
    rw [azure_result_eq s w t a hA hO hR hP hw (by omega)]
    simp only [hmiss, Bool.false_eq_true, if_false, ite_false, h1,
      IndexAzure.moveToNextWord, IndexAzure.endGame, hw]
    have h2 : 2 ≤ 1 + 1 := by omega
    simp only [h2, if_true, ite_true]
    constructor
    · intro hlt
      have hl : ¬ s.shuffledWords.length ≤ s.currentWordIndex + 1 := by omega
      simp only [hl, if_false, ite_false]
      exact ⟨by trivial, hO⟩
    · intro hle
      simp only [hle, if_true, ite_true]
      exact ⟨by trivial, by trivial⟩
  · intro hge
    rw [azure_result_max s w t a hA hO hR hP hw hge]
    simp only [IndexAzure.moveToNextWord, IndexAzure.endGame, hw]
    refine ⟨?_, ?_, ?_⟩
    · by_cases hl : s.shuffledWords.length ≤ s.currentWordIndex + 1 <;>
        simp only [hl, if_true, ite_true, if_false, ite_false]
    · intro hlt
      have hl : ¬ s.shuffledWords.length ≤ s.currentWordIndex + 1 := by omega
      simp only [hl, if_false, ite_false]
    · intro hle
      simp only [hle, if_true, ite_true]
  · intro v
    by_cases hvw : v = w.text
    · subst hvw
      by_cases hge : 2 ≤ lookupAttempts s.incorrectAttempts w.text
      · rw [azure_result_max s w t a hA hO hR hP hw hge]
        simp only [IndexAzure.moveToNextWord, IndexAzure.endGame, hw]
        by_cases hl : s.shuffledWords.length ≤ s.currentWordIndex + 1 <;>
          simp only [hl, if_true, ite_true, if_false, ite_false] <;>
          rw [lookupAttempts_eraseAttempts_self] <;>
          exact Nat.zero_le _
      · rw [azure_result_eq s w t a hA hO hR hP hw (by omega)]
        simp only [hmiss, Bool.false_eq_true, if_false, ite_false]
        by_cases h2 : 2 ≤ lookupAttempts s.incorrectAttempts w.text + 1
        · simp only [h2, if_true, ite_true, IndexAzure.moveToNextWord,
            IndexAzure.endGame, hw]
          by_cases hl : s.shuffledWords.length ≤ s.currentWordIndex + 1 <;>
            simp only [hl, if_true, ite_true, if_false, ite_false] <;>
            rw [lookupAttempts_eraseAttempts_self] <;>
            exact Nat.zero_le _
        · simp only [h2, if_false, ite_false]
          rw [lookupAttempts_setAttempts_self]
          exact le_trans (by omega) (le_max_right _ 2)
    · by_cases hge : 2 ≤ lookupAttempts s.incorrectAttempts w.text
      · rw [azure_result_max s w t a hA hO hR hP hw hge]
        simp only [IndexAzure.moveToNextWord, IndexAzure.endGame, hw]
        by_cases hl : s.shuffledWords.length ≤ s.currentWordIndex + 1 <;>
          simp only [hl, if_true, ite_true, if_false, ite_false] <;>
          rw [lookupAttempts_eraseAttempts_other _ _ _ hvw] <;>
          exact le_max_left _ 2
      · rw [azure_result_eq s w t a hA hO hR hP hw (by omega)]
        simp only [hmiss, Bool.false_eq_true, if_false, ite_false]
        by_cases h2 : 2 ≤ lookupAttempts s.incorrectAttempts w.text + 1
        · simp only [h2, if_true, ite_true, IndexAzure.moveToNextWord,
            IndexAzure.endGame, hw]
          by_cases hl : s.shuffledWords.length ≤ s.currentWordIndex + 1 <;>
            simp only [hl, if_true, ite_true, if_false, ite_false] <;>
            rw [lookupAttempts_eraseAttempts_other _ _ _ hvw,
              lookupAttempts_setAttempts_other _ _ _ _ hvw] <;>
            exact le_max_left _ 2
        · simp only [h2, if_false, ite_false]
          rw [lookupAttempts_setAttempts_other _ _ _ _ hvw]
          exact le_max_left _ 2

theorem claim_C4_witness :
    sOneMiss.gameActive = true ∧ sOneMiss.gameOver = false ∧
    sOneMiss.isProcessingAttemptRef = false ∧
    sOneMiss.isProcessingAttempt = false ∧
    sOneMiss.shuffledWords.get? sOneMiss.currentWordIndex = some wCat ∧
    evaluateMatch (allPossibleWords "hat" none) (normalizeWord wCat.text) = false ∧
    ((lookupAttempts sOneMiss.incorrectAttempts wCat.text = 0 →
      (IndexAzure.handleSpeechResult sOneMiss "hat" none).currentWordIndex = sOneMiss.currentWordIndex ∧
      (IndexAzure.handleSpeechResult sOneMiss "hat" none).gameOver = false ∧
      (IndexAzure.handleSpeechResult sOneMiss "hat" none).gameActive = true ∧
      lookupAttempts (IndexAzure.handleSpeechResult sOneMiss "hat" none).incorrectAttempts wCat.text = 1) ∧
    (lookupAttempts sOneMiss.incorrectAttempts wCat.text = 1 →
      ((sOneMiss.currentWordIndex + 1 < sOneMiss.shuffledWords.length →
        (IndexAzure.handleSpeechResult sOneMiss "hat" none).currentWordIndex = sOneMiss.currentWordIndex + 1 ∧
        (IndexAzure.handleSpeechResult sOneMiss "hat" none).gameOver = false) ∧
       (sOneMiss.shuffledWords.length ≤ sOneMiss.currentWordIndex + 1 →
        (IndexAzure.handleSpeechResult sOneMiss "hat" none).gameOver = true ∧
        (IndexAzure.handleSpeechResult sOneMiss "hat" none).gameActive = false))) ∧
    (2 ≤ lookupAttempts sOneMiss.incorrectAttempts wCat.text →
      (IndexAzure.handleSpeechResult sOneMiss "hat" none).gameLog = sOneMiss.gameLog ∧
      ((sOneMiss.currentWordIndex + 1 < sOneMiss.shuffledWords.length →
        (IndexAzure.handleSpeechResult sOneMiss "hat" none).currentWordIndex = sOneMiss.currentWordIndex + 1) ∧
       (sOneMiss.shuffledWords.length ≤ sOneMiss.currentWordIndex + 1 →
        (IndexAzure.handleSpeechResult sOneMiss "hat" none).gameOver = true))) ∧
    (∀ v, lookupAttempts (IndexAzure.handleSpeechResult sOneMiss "hat" none).incorrectAttempts v ≤
      max (lookupAttempts sOneMiss.incorrectAttempts v) 2)) :=
  ⟨rfl, rfl, rfl, rfl, rfl, by decide,
    claim_C4_attempt_cap sOneMiss wCat "hat" none rfl rfl rfl rfl rfl (by decide)⟩

end GuessyWordy
